import Mathlib

/-!
Verification of wal-g page-file increment handling, the uploader retry
policy, the version-gated backup control queries, and the WAL overwrite
check, against the Go sources in `internal/pagefile_new.go`,
`internal/uploader.go`, `internal/databases/postgres/queryRunner.go`
and `internal/wal_push_handler.go`.

Byte streams (`io.Reader`) are modelled as `List Nat`; files opened
through the `ReadWriterAt` interface are modelled as a byte size plus a
byte-addressed content function.  Fallible operations return
`Except PgError`.
-/

namespace WalG

/-- Error values distinguished by the modelled code paths:
`io.EOF`, `io.ErrUnexpectedEOF`, the invalid-increment-header error,
and `UnexpectedTarDataError` from `pagefile_new.go`. -/
inductive PgError where
  | eof
  | unexpectedEOF
  | invalidIncrementFileHeader
  | unexpectedTarData
deriving DecidableEq

/-- Modelled from the spec: the page size constant (`DatabasePageSize`
is declared outside the provided sources; the spec fixes pages at
8192 bytes). -/
def DatabasePageSize : Nat := 8192

/-- Modelled from the spec: the page-header size (the spec fixes the
page LSN header at the first 8 bytes of a page). -/
def headerSize : Nat := 8

/-- Modelled from the spec: `sizeofInt32`, the width of one diffMap
entry (4-byte little-endian block numbers). -/
def sizeofInt32 : Nat := 4

/-- `io.ReadFull`: reads exactly `n` bytes, `io.EOF` when the stream is
empty, `io.ErrUnexpectedEOF` on a short read. -/
def readFull (n : Nat) (s : List Nat) : Except PgError (List Nat × List Nat) :=
  if n ≤ s.length then Except.ok (s.take n, s.drop n)
  else if s.length = 0 then Except.error PgError.eof
  else Except.error PgError.unexpectedEOF

/-- `io.CopyN(ioutil.Discard, r, n)`: consumes `n` bytes, `io.EOF` when
fewer are available. -/
def copyNDiscard (n : Nat) (s : List Nat) : Except PgError (List Nat) :=
  if n ≤ s.length then Except.ok (s.drop n)
  else Except.error PgError.eof

/-- Little-endian value of a byte list (`binary.LittleEndian`). -/
def leNat (bs : List Nat) : Nat :=
  bs.foldr (fun b acc => b + 256 * acc) 0

/-- Little-endian encoding of `n` on `k` bytes. -/
def leBytes : Nat → Nat → List Nat
  | 0, _ => []
  | k + 1, n => (n % 256) :: leBytes k (n / 256)

/-- A local file opened through the `ReadWriterAt` interface: a byte
size plus byte-addressed contents. -/
structure TargetFile where
  size : Nat
  byteAt : Nat → Nat

/-- `WriteAt`: overwrite `data.length` bytes at `off`, extending the
file size when writing past the current end. -/
def TargetFile.writeAt (t : TargetFile) (data : List Nat) (off : Nat) : TargetFile :=
  { size := max t.size (off + data.length),
    byteAt := fun j =>
      if off ≤ j ∧ j < off + data.length then data.getD (j - off) 0 else t.byteAt j }

/-- `ReadAt`: read `n` bytes at `off`; `io.EOF` when the range exceeds
the file size. -/
def TargetFile.readAt (t : TargetFile) (n off : Nat) : Except PgError (List Nat) :=
  if off + n ≤ t.size then
    Except.ok ((List.range n).map (fun j => t.byteAt (off + j)))
  else Except.error PgError.eof

/-- A freshly created, empty target file. -/
def emptyTarget : TargetFile := { size := 0, byteAt := fun _ => 0 }

/-- The bytes of page `i` of a target file. -/
def pageOf (t : TargetFile) (i : Nat) : List Nat :=
  (List.range DatabasePageSize).map (fun j => t.byteAt (i * DatabasePageSize + j))

/-- The first `headerSize` bytes of page `i` of a target file. -/
def headerBytes (t : TargetFile) (i : Nat) : List Nat :=
  (List.range headerSize).map (fun j => t.byteAt (i * DatabasePageSize + j))

/-- The all-zero page written for blocks absent from an increment
(`emptyPage` in `CreateFileFromIncrement`). -/
def zeroPage : List Nat := List.replicate DatabasePageSize 0

/-- `getPageCount`: the target size divided by the page size. -/
def getPageCount (target : TargetFile) : Nat :=
  target.size / DatabasePageSize

/-- `checkIfMissingPage`: a page is missing when its first `headerSize`
bytes are all zero. -/
def checkIfMissingPage (target : TargetFile) (blockNo : Nat) : Except PgError Bool :=
  match target.readAt headerSize (blockNo * DatabasePageSize) with
  | Except.error e => Except.error e
  | Except.ok pageHeader =>
      Except.ok (decide (pageHeader = List.replicate headerSize 0))

/-- `writePage`: read one full page from `content`; when `overwrite` is
false, skip the write unless the target page is missing. -/
def writePage (target : TargetFile) (blockNo : Nat) (content : List Nat)
    (overwrite : Bool) : Except PgError (TargetFile × List Nat) :=
  match readFull DatabasePageSize content with
  | Except.error e => Except.error e
  | Except.ok (page, rest) =>
      if overwrite then
        Except.ok (target.writeAt page (blockNo * DatabasePageSize), rest)
      else
        match checkIfMissingPage target blockNo with
        | Except.error e => Except.error e
        | Except.ok isMissingPage =>
            if isMissingPage then
              Except.ok (target.writeAt page (blockNo * DatabasePageSize), rest)
            else
              Except.ok (target, rest)

/-- `isTarReaderEmpty`: a 1-byte read returns no bytes. -/
def isTarReaderEmpty (reader : List Nat) : Bool :=
  reader.isEmpty

/-- The accepted 4-byte increment file header: magic bytes `wi`,
a version byte and a signature byte. -/
def IncrementFileHeader : List Nat := [119, 105, 49, 85]

/-- Modelled from the spec: `ReadIncrementFileHeader` is declared
outside the provided sources; per the spec it reads the 4-byte
magic/version marker and rejects any stream whose marker is not in the
accepted whitelist. -/
def ReadIncrementFileHeader (s : List Nat) : Except PgError (List Nat) :=
  match readFull 4 s with
  | Except.error e => Except.error e
  | Except.ok (header, rest) =>
      if header = IncrementFileHeader then Except.ok rest
      else Except.error PgError.invalidIncrementFileHeader

/-- Modelled from the spec: `parsingutil.ParseMultipleFieldsFromReader`
is declared outside the provided sources; per the spec each numeric
field is read as a fixed-width little-endian value. -/
def parseLEField (width : Nat) (s : List Nat) : Except PgError (Nat × List Nat) :=
  match readFull width s with
  | Except.error e => Except.error e
  | Except.ok (bs, rest) => Except.ok (leNat bs, rest)

/-- Go `uint32` arithmetic: results wrap modulo `2 ^ 32`. -/
def u32 (n : Nat) : Nat :=
  n % 4294967296

/-- `getIncrementHeaderFields`: header marker, `fileSize : uint64`,
`diffBlockCount : uint32`, then `diffBlockCount * sizeofInt32` bytes of
diffMap.  The length `diffBlockCount * sizeofInt32` is computed in
`uint32` by the source, so it wraps modulo `2 ^ 32` for
`diffBlockCount ≥ 2 ^ 30` (the entry loops then panic slicing the
short buffer; the theorems below stay in the wrap-free range). -/
def getIncrementHeaderFields (increment : List Nat) :
    Except PgError (Nat × Nat × List Nat × List Nat) :=
  match ReadIncrementFileHeader increment with
  | Except.error e => Except.error e
  | Except.ok rest0 =>
      match parseLEField 8 rest0 with
      | Except.error e => Except.error e
      | Except.ok (fileSize, rest1) =>
          match parseLEField sizeofInt32 rest1 with
          | Except.error e => Except.error e
          | Except.ok (diffBlockCount, rest2) =>
              match readFull (u32 (diffBlockCount * sizeofInt32)) rest2 with
              | Except.error e => Except.error e
              | Except.ok (diffMap, rest3) =>
                  Except.ok (fileSize, diffBlockCount, diffMap, rest3)

/-- The block numbers read from the raw diffMap bytes
(`binary.LittleEndian.Uint32(diffMap[i*sizeofInt32 : (i+1)*sizeofInt32])`).
The slice bounds are `uint32` products in the source and wrap modulo
`2 ^ 32`; a slice `diffMap[a:b]` of a `b - a`-byte window is modelled
by `take (b - a) (drop a diffMap)` (in the wrapped out-of-range region
the source panics instead; the theorems below exclude it). -/
def decodeDiffMap (diffBlockCount : Nat) (diffMap : List Nat) : List Nat :=
  (List.range diffBlockCount).map
    (fun i => leNat ((diffMap.drop (u32 (i * sizeofInt32))).take
      (u32 ((i + 1) * sizeofInt32) - u32 (i * sizeofInt32))))

/-- The per-block loop of `RestoreMissingPages`: `writePage` with
`overwrite = false` for each block, breaking on `io.EOF`. -/
def restoreLoop : Nat → Nat → List Nat → TargetFile → Except PgError TargetFile
  | 0, _, _, target => Except.ok target
  | Nat.succ k, i, base, target =>
      match writePage target i base false with
      | Except.error PgError.eof => Except.ok target
      | Except.error e => Except.error e
      | Except.ok (t2, rest) => restoreLoop k (i + 1) rest t2

/-- `RestoreMissingPages`: walk all full pages of the target, filling
missing (zero-header) pages from the base-backup stream. -/
def RestoreMissingPages (base : List Nat) (target : TargetFile) : Except PgError TargetFile :=
  restoreLoop (getPageCount target) 0 base target

/-- The per-page loop of `CreateFileFromIncrement`: blocks in the
diffMap take the next page from the increment (`overwrite = true`),
other blocks get an all-zero page. -/
def createLoop (blockNos : List Nat) :
    Nat → Nat → List Nat → TargetFile → Except PgError (TargetFile × List Nat)
  | 0, _, s, target => Except.ok (target, s)
  | Nat.succ k, i, s, target =>
      if i ∈ blockNos then
        match writePage target i s true with
        | Except.error e => Except.error e
        | Except.ok (t2, s2) => createLoop blockNos k (i + 1) s2 t2
      else
        createLoop blockNos k (i + 1) s
          (target.writeAt zeroPage (i * DatabasePageSize))

/-- `CreateFileFromIncrement`: decode the header, then write
`fileSize / DatabasePageSize` pages, taking diffMap pages from the
increment and zero-filling the rest.  Write offsets
`i * DatabasePageSize` are `int64` in the source, which overflows for
`fileSize ≥ 2 ^ 63`; the theorem below restricts `fileSize` to the
overflow-free range. -/
def CreateFileFromIncrement (increment : List Nat) (target : TargetFile) :
    Except PgError TargetFile :=
  match getIncrementHeaderFields increment with
  | Except.error e => Except.error e
  | Except.ok (fileSize, diffBlockCount, diffMap, rest) =>
      let deltaBlockNumbers := decodeDiffMap diffBlockCount diffMap
      let pageCount := fileSize / DatabasePageSize
      match createLoop deltaBlockNumbers pageCount 0 rest target with
      | Except.error e => Except.error e
      | Except.ok (t2, _) => Except.ok t2

/-- The per-entry loop of `WritePagesFromIncrement`: entries at or past
the target page count are consumed and discarded, the rest go through
`writePage`. -/
def writePagesLoop (targetPageCount : Nat) (overwriteExisting : Bool) :
    List Nat → List Nat → TargetFile → Except PgError (TargetFile × List Nat)
  | [], s, target => Except.ok (target, s)
  | blockNo :: rest, s, target =>
      if targetPageCount ≤ blockNo then
        match copyNDiscard DatabasePageSize s with
        | Except.error e => Except.error e
        | Except.ok s2 => writePagesLoop targetPageCount overwriteExisting rest s2 target
      else
        match writePage target blockNo s overwriteExisting with
        | Except.error e => Except.error e
        | Except.ok (t2, s2) => writePagesLoop targetPageCount overwriteExisting rest s2 t2

/-- `WritePagesFromIncrement`: decode the header, process every diffMap
entry, then fail with `UnexpectedTarDataError` unless the increment is
exactly exhausted. -/
def WritePagesFromIncrement (increment : List Nat) (target : TargetFile)
    (overwriteExisting : Bool) : Except PgError TargetFile :=
  match getIncrementHeaderFields increment with
  | Except.error e => Except.error e
  | Except.ok (_, diffBlockCount, diffMap, rest) =>
      let targetPageCount := getPageCount target
      match writePagesLoop targetPageCount overwriteExisting
          (decodeDiffMap diffBlockCount diffMap) rest target with
      | Except.error e => Except.error e
      | Except.ok (t2, rest2) =>
          if isTarReaderEmpty rest2 then Except.ok t2
          else Except.error PgError.unexpectedTarData

/-- A well-formed increment stream built from its header fields: the
accepted marker, little-endian `fileSize` and block count, the diffMap
entries, then the page bodies in diffMap order. -/
def encodeIncrement (fileSize : Nat) (blockNos : List Nat) (pages : List (List Nat)) :
    List Nat :=
  IncrementFileHeader ++ leBytes 8 fileSize ++ leBytes sizeofInt32 blockNos.length
    ++ (blockNos.map (fun b => leBytes sizeofInt32 b)).flatten ++ pages.flatten

/-! ### Uploader (`internal/uploader.go`)

`PutObject` outcomes are abstracted as a function from the attempt
index to `none` (success) or `some e` (the error of that attempt). -/

/-- The retry budget of `Uploader.Upload`. -/
def retries : Nat := 3

/-- The observable outcome of one `Uploader.Upload` call: the returned
error, the `Failed` flag afterwards, and how many `PutObject` attempts
were made. -/
structure UploadOutcome where
  ret : Option Nat
  failed : Bool
  attempts : Nat
deriving DecidableEq

/-- The retry loop of `Uploader.Upload`: returns the loop's final `err`
variable together with the number of `PutObject` calls made. -/
def uploadGo (putResult : Nat → Option Nat) : Nat → Nat → Option Nat → Option Nat × Nat
  | 0, _, lastErr => (lastErr, 0)
  | Nat.succ fuel, i, _ =>
      match putResult i with
      | none => (none, 1)
      | some e =>
          let r := uploadGo putResult fuel (i + 1) (some e)
          (r.1, r.2 + 1)

/-- `Uploader.Upload`: up to `retries` `PutObject` attempts; returning
early on the first success, latching `Failed` to true on exhaustion. -/
def Upload (putResult : Nat → Option Nat) (failed0 : Bool) : UploadOutcome :=
  match uploadGo putResult retries 0 none with
  | (none, n) => { ret := none, failed := failed0, attempts := n }
  | (some e, n) => { ret := some e, failed := true, attempts := n }

/-- The `Failed` flag state of an `Uploader`. -/
structure UploaderState where
  failed : Bool
deriving DecidableEq

/-- `NewUploader`: the constructor stores `false` into `Failed`. -/
def NewUploader : UploaderState := { failed := false }

/-- `uploadMultiple`: upload objects in order, stopping at the first
error. -/
def uploadMultiple (putResults : List (Nat → Option Nat)) (st : UploaderState) :
    Option Nat × UploaderState :=
  match putResults with
  | [] => (none, st)
  | r :: rest =>
      match (Upload r st.failed).ret with
      | some e => (some e, { failed := (Upload r st.failed).failed })
      | none => uploadMultiple rest { failed := (Upload r st.failed).failed }

/-! ### Version-gated control queries
(`internal/databases/postgres/queryRunner.go`) -/

/-- The errors of `BuildStartBackup` / `BuildStopBackup`:
`NoPostgresVersionError` for an unset (zero) version and
`UnsupportedPostgresVersionError` otherwise. -/
inductive BackupQueryError where
  | noPostgresVersion
  | unsupportedPostgresVersion (version : Int)
deriving DecidableEq

/-- The start-backup query for server version 10 and later. -/
def startBackupQuery10 : String :=
  "SELECT case when pg_is_in_recovery() then '' else (pg_walfile_name_offset(lsn)).file_name end, lsn::text, pg_is_in_recovery() FROM pg_start_backup($1, true, false) lsn"

/-- The start-backup query for server versions 9.6 through 9.x. -/
def startBackupQuery96 : String :=
  "SELECT case when pg_is_in_recovery() then '' else (pg_xlogfile_name_offset(lsn)).file_name end, lsn::text, pg_is_in_recovery() FROM pg_start_backup($1, true, false) lsn"

/-- The start-backup query for server versions 9.0 through 9.5. -/
def startBackupQuery90 : String :=
  "SELECT case when pg_is_in_recovery() then '' else (pg_xlogfile_name_offset(lsn)).file_name end, lsn::text, pg_is_in_recovery() FROM pg_start_backup($1, true) lsn"

/-- The stop-backup query for server version 9.6 and later. -/
def stopBackupQuery96 : String :=
  "SELECT labelfile, spcmapfile, lsn FROM pg_stop_backup(false)"

/-- The stop-backup query for server versions 9.0 through 9.5; the
`pg_stop_backup()` call itself yields only the lsn, from which the
file name and offset are derived. -/
def stopBackupQuery90 : String :=
  "SELECT (pg_xlogfile_name_offset(lsn)).file_name, lpad((pg_xlogfile_name_offset(lsn)).file_offset::text, 8, '0') AS file_offset, lsn::text FROM pg_stop_backup() lsn"

/-- `PgQueryRunner.BuildStartBackup`, switching on `Version`. -/
def BuildStartBackup (version : Int) : Except BackupQueryError String :=
  if 100000 ≤ version then Except.ok startBackupQuery10
  else if 90600 ≤ version then Except.ok startBackupQuery96
  else if 90000 ≤ version then Except.ok startBackupQuery90
  else if version = 0 then Except.error BackupQueryError.noPostgresVersion
  else Except.error (BackupQueryError.unsupportedPostgresVersion version)

/-- `PgQueryRunner.BuildStopBackup`, switching on `Version`. -/
def BuildStopBackup (version : Int) : Except BackupQueryError String :=
  if 90600 ≤ version then Except.ok stopBackupQuery96
  else if 90000 ≤ version then Except.ok stopBackupQuery90
  else if version = 0 then Except.error BackupQueryError.noPostgresVersion
  else Except.error (BackupQueryError.unsupportedPostgresVersion version)

/-- `needle` occurs contiguously inside `hay`. -/
def strHasSub (needle hay : String) : Prop :=
  ∃ a b : String, hay = a ++ needle ++ b

/-! ### WAL overwrite check (`internal/wal_push_handler.go`)

`DownloadAndDecompressStorageFile` is abstracted by its outcome: the
decompressed archived bytes, `ArchiveNonExistenceError`, or another
error.  The uploader side of `uploadWALFile` is abstracted by whether
`UploadWalFile` succeeds. -/

/-- Outcome of downloading the already-archived WAL object. -/
inductive DownloadResult where
  | found (content : List Nat)
  | absent
  | failed
deriving DecidableEq

/-- Errors observable from `checkWALOverwrite`:
`CantOverwriteWalFileError` or a passed-through inner error. -/
inductive CheckError where
  | cantOverwriteWal
  | downloadFailure
deriving DecidableEq

/-- Errors observable from `uploadWALFile`. -/
inductive WalPushError where
  | cantOverwriteWalFile
  | checkInner
  | uploadFailure
deriving DecidableEq

/-- `checkWALOverwrite`: `(overwriteAttempt, err)`.  A non-existent
archive is not an overwrite attempt and clears the error; an archived
object with differing content is an overwrite attempt with
`CantOverwriteWalFileError`; equal content is an overwrite attempt with
no error. -/
def checkWALOverwrite (d : DownloadResult) (localBytes : List Nat) :
    Bool × Option CheckError :=
  match d with
  | DownloadResult.failed => (false, some CheckError.downloadFailure)
  | DownloadResult.absent => (false, none)
  | DownloadResult.found archived =>
      if archived = localBytes then (true, none)
      else (true, some CheckError.cantOverwriteWal)

/-- Map a `checkWALOverwrite` error to the value `uploadWALFile`
returns for it. -/
def toWalPushError : CheckError → WalPushError
  | CheckError.cantOverwriteWal => WalPushError.cantOverwriteWalFile
  | CheckError.downloadFailure => WalPushError.checkInner

/-- `uploadWALFile`: with `preventWalOverwrite` set, an overwrite
attempt returns the check's error as-is (possibly nil) without
uploading, an inner check error is wrapped and returned, and otherwise
the upload proceeds.  The second component records whether the upload
was attempted. -/
def uploadWALFile (preventWalOverwrite : Bool) (d : DownloadResult)
    (localBytes : List Nat) (uploadOk : Bool) : Option WalPushError × Bool :=
  if preventWalOverwrite then
    let check := checkWALOverwrite d localBytes
    if check.1 then (check.2.map toWalPushError, false)
    else
      match check.2 with
      | some _ => (some WalPushError.checkInner, false)
      | none =>
          ((if uploadOk then none else some WalPushError.uploadFailure), true)
  else
    ((if uploadOk then none else some WalPushError.uploadFailure), true)

/-- A concrete increment stream whose 4-byte marker is accepted but
whose diffMap `[1, 0]` is not ascending and whose remaining bytes
(none) cannot hold `diffBlockCount = 2` pages. -/
def badIncrementStream : List Nat :=
  IncrementFileHeader ++ leBytes 8 16384 ++ leBytes sizeofInt32 2
    ++ leBytes sizeofInt32 1 ++ leBytes sizeofInt32 0

/-- A two-page target whose first page has a zero header and whose
second page has nonzero header bytes. -/
def demoTargetMixed : TargetFile :=
  { size := 16384, byteAt := fun j => if j < DatabasePageSize then 0 else 3 }

/-- A two-page target with nonzero bytes everywhere. -/
def demoTargetThrees : TargetFile :=
  { size := 16384, byteAt := fun _ => 3 }

/-- A two-page target holding only zero bytes. -/
def demoTargetZeros : TargetFile :=
  { size := 16384, byteAt := fun _ => 0 }

/-! ### Stream and byte-encoding lemmas -/

theorem take_append_len (l r : List Nat) : (l ++ r).take l.length = l := by
  induction l with
  | nil => rfl
  | cons a t ih => rw [List.cons_append, List.length_cons, List.take_succ_cons, ih]

theorem drop_append_len (l r : List Nat) : (l ++ r).drop l.length = r := by
  induction l with
  | nil => rfl
  | cons a t ih => rw [List.cons_append, List.length_cons, List.drop_succ_cons, ih]

theorem take_append_of_len (l r : List Nat) (n : Nat) (h : l.length = n) :
    (l ++ r).take n = l := by
  subst h; exact take_append_len l r

theorem drop_append_len_add (l r : List Nat) (m : Nat) :
    (l ++ r).drop (l.length + m) = r.drop m := by
  induction l with
  | nil => rw [List.nil_append, List.length_nil, Nat.zero_add]
  | cons a t ih => rw [List.cons_append, List.length_cons, Nat.succ_add, List.drop_succ_cons, ih]

theorem readFull_exact (l r : List Nat) (n : Nat) (h : l.length = n) :
    readFull n (l ++ r) = Except.ok (l, r) := by
  subst h
  unfold readFull
  rw [if_pos (by rw [List.length_append]; exact Nat.le_add_right _ _)]
  rw [take_append_len, drop_append_len]

theorem readFull_nil (n : Nat) (h : 0 < n) : readFull n [] = Except.error PgError.eof := by
  unfold readFull
  rw [List.length_nil, if_neg (by omega), if_pos rfl]

theorem copyNDiscard_exact (l r : List Nat) (n : Nat) (h : l.length = n) :
    copyNDiscard n (l ++ r) = Except.ok r := by
  subst h
  unfold copyNDiscard
  rw [if_pos (by rw [List.length_append]; exact Nat.le_add_right _ _), drop_append_len]

theorem leBytes_length (k n : Nat) : (leBytes k n).length = k := by
  induction k generalizing n with
  | zero => rfl
  | succ k ih => rw [leBytes, List.length_cons, ih]

theorem leNat_leBytes (k n : Nat) (h : n < 256 ^ k) : leNat (leBytes k n) = n := by
  induction k generalizing n with
  | zero =>
      have : n = 0 := by
        have h1 := h
        rw [pow_zero] at h1
        omega
      subst this; rfl
  | succ k ih =>
      have hdiv : n / 256 < 256 ^ k := by
        rw [Nat.div_lt_iff_lt_mul (by norm_num : (0:Nat) < 256)]
        rw [pow_succ] at h
        exact h
      rw [leBytes]
      show n % 256 + 256 * leNat (leBytes k (n / 256)) = n
      rw [ih _ hdiv, Nat.mod_add_div]

theorem diffMapBytes_length (bns : List Nat) :
    ((bns.map (fun b => leBytes sizeofInt32 b)).flatten).length = bns.length * sizeofInt32 := by
  induction bns with
  | nil => rfl
  | cons b t ih =>
      rw [List.map_cons, List.flatten_cons, List.length_append, leBytes_length, ih,
        List.length_cons]
      ring

theorem diffMapEntries_encode (bns : List Nat) (h : ∀ b ∈ bns, b < 2 ^ 32) :
    (List.range bns.length).map
      (fun i => leNat ((((bns.map (fun b => leBytes sizeofInt32 b)).flatten).drop
        (i * sizeofInt32)).take sizeofInt32)) = bns := by
  induction bns with
  | nil => rfl
  | cons b t ih =>
      have hb : b < 256 ^ sizeofInt32 := by
        have hb0 := h b (List.mem_cons_self b t)
        have h432 : (256:Nat) ^ sizeofInt32 = 2 ^ 32 := by norm_num [sizeofInt32]
        rw [h432]
        exact hb0
      rw [List.map_cons, List.flatten_cons, List.length_cons, List.range_succ_eq_map,
        List.map_cons, List.map_map]
      congr 1
      · rw [Nat.zero_mul, List.drop_zero,
          take_append_of_len _ _ _ (leBytes_length _ _), leNat_leBytes _ _ hb]
      · have hstep : ∀ i : Nat,
            leNat ((((leBytes sizeofInt32 b
                ++ (t.map (fun x => leBytes sizeofInt32 x)).flatten).drop
                  (Nat.succ i * sizeofInt32)).take sizeofInt32))
              = leNat ((((t.map (fun x => leBytes sizeofInt32 x)).flatten).drop
                  (i * sizeofInt32)).take sizeofInt32) := by
          intro i
          have harith : Nat.succ i * sizeofInt32
              = (leBytes sizeofInt32 b).length + i * sizeofInt32 := by
            rw [leBytes_length, Nat.succ_mul, Nat.add_comm]
          rw [harith, drop_append_len_add]
        have ht := ih (fun x hx => h x (List.mem_cons_of_mem b hx))
        refine Eq.trans (List.map_congr_left ?_) ht
        intro i _
        exact hstep i

theorem u32_small (n : Nat) (h : n < 4294967296) : u32 n = n :=
  Nat.mod_eq_of_lt h

theorem decode_entry_small (n i : Nat) (hi : i < n) (hn : n < 2 ^ 30) (l : List Nat) :
    (l.drop (u32 (i * sizeofInt32))).take
      (u32 ((i + 1) * sizeofInt32) - u32 (i * sizeofInt32))
      = (l.drop (i * sizeofInt32)).take sizeofInt32 := by
  have hn2 : n < 1073741824 := by
    have h30 : (2 : Nat) ^ 30 = 1073741824 := by norm_num
    rw [h30] at hn
    exact hn
  have h1 : i * sizeofInt32 < 4294967296 := by
    simp only [sizeofInt32]
    omega
  have h2 : (i + 1) * sizeofInt32 < 4294967296 := by
    simp only [sizeofInt32]
    omega
  have h3 : (i + 1) * sizeofInt32 - i * sizeofInt32 = sizeofInt32 := by
    simp only [sizeofInt32]
    omega
  rw [u32_small _ h1, u32_small _ h2, h3]

theorem decodeDiffMap_small (n : Nat) (hn : n < 2 ^ 30) (l : List Nat) :
    decodeDiffMap n l
      = (List.range n).map
          (fun i => leNat ((l.drop (i * sizeofInt32)).take sizeofInt32)) := by
  unfold decodeDiffMap
  apply List.map_congr_left
  intro i hi
  rw [decode_entry_small n i (List.mem_range.mp hi) hn l]

theorem decodeDiffMap_encode (bns : List Nat) (hcnt : bns.length < 2 ^ 30)
    (h : ∀ b ∈ bns, b < 2 ^ 32) :
    decodeDiffMap bns.length ((bns.map (fun b => leBytes sizeofInt32 b)).flatten) = bns := by
  rw [decodeDiffMap_small bns.length hcnt]
  exact diffMapEntries_encode bns h

theorem pow_256_8 : (256 : Nat) ^ 8 = 2 ^ 64 := by norm_num

theorem ReadIncrementFileHeader_encode (rest : List Nat) :
    ReadIncrementFileHeader (IncrementFileHeader ++ rest) = Except.ok rest := by
  unfold ReadIncrementFileHeader
  rw [readFull_exact IncrementFileHeader rest 4 (by rfl)]
  show (if IncrementFileHeader = IncrementFileHeader then Except.ok rest
    else Except.error PgError.invalidIncrementFileHeader) = Except.ok rest
  rw [if_pos rfl]

theorem parseLEField_encode (w n : Nat) (rest : List Nat) (h : n < 256 ^ w) :
    parseLEField w (leBytes w n ++ rest) = Except.ok (n, rest) := by
  unfold parseLEField
  rw [readFull_exact _ _ _ (leBytes_length _ _)]
  show Except.ok (leNat (leBytes w n), rest) = Except.ok (n, rest)
  rw [leNat_leBytes _ _ h]

theorem getIncrementHeaderFields_encode (fileSize : Nat) (bns : List Nat)
    (ps : List (List Nat)) (extra : List Nat)
    (hfs : fileSize < 2 ^ 64) (hcnt : bns.length < 2 ^ 30) :
    getIncrementHeaderFields (encodeIncrement fileSize bns ps ++ extra) =
      Except.ok (fileSize, bns.length,
        (bns.map (fun b => leBytes sizeofInt32 b)).flatten, ps.flatten ++ extra) := by
  have hfs8 : fileSize < 256 ^ 8 := by rw [pow_256_8]; exact hfs
  have hcnt32 : bns.length < 2 ^ 32 := lt_trans hcnt (by norm_num)
  have hcnt4 : bns.length < 256 ^ sizeofInt32 := by
    have h432 : (256 : Nat) ^ sizeofInt32 = 2 ^ 32 := by norm_num [sizeofInt32]
    rw [h432]; exact hcnt32
  have hmul : bns.length * sizeofInt32 < 4294967296 := by
    have hn2 : bns.length < 1073741824 := by
      have h30 : (2 : Nat) ^ 30 = 1073741824 := by norm_num
      rw [h30] at hcnt
      exact hcnt
    simp only [sizeofInt32]
    omega
  have hdm : ((bns.map (fun b => leBytes sizeofInt32 b)).flatten).length
      = u32 (bns.length * sizeofInt32) := by
    rw [diffMapBytes_length]
    unfold u32
    rw [Nat.mod_eq_of_lt hmul]
  have hs : encodeIncrement fileSize bns ps ++ extra
      = IncrementFileHeader ++ (leBytes 8 fileSize ++ (leBytes sizeofInt32 bns.length
        ++ ((bns.map (fun b => leBytes sizeofInt32 b)).flatten ++ (ps.flatten ++ extra)))) := by
    simp [encodeIncrement, List.append_assoc]
  rw [hs]
  unfold getIncrementHeaderFields
  rw [ReadIncrementFileHeader_encode]
  simp only [parseLEField_encode _ _ _ hfs8, parseLEField_encode _ _ _ hcnt4,
    readFull_exact _ _ _ hdm]

/-! ### Target-file page lemmas -/

theorem map_range_congr (f g : Nat → Nat) (n : Nat) (h : ∀ j, j < n → f j = g j) :
    (List.range n).map f = (List.range n).map g := by
  apply List.map_congr_left
  intro j hj
  exact h j (List.mem_range.mp hj)

theorem map_range_getD (p : List Nat) :
    (List.range p.length).map (fun j => p.getD j 0) = p := by
  induction p with
  | nil => rfl
  | cons a t ih =>
      rw [List.length_cons, List.range_succ_eq_map, List.map_cons, List.map_map]
      refine congrArg (a :: ·) ?_
      refine Eq.trans (List.map_congr_left ?_) ih
      intro j _
      rfl

theorem byteAt_writeAt_out (t : TargetFile) (p : List Nat) (off j : Nat)
    (h : ¬(off ≤ j ∧ j < off + p.length)) :
    (t.writeAt p off).byteAt j = t.byteAt j := by
  simp only [TargetFile.writeAt]
  rw [if_neg h]

theorem size_writeAt (t : TargetFile) (p : List Nat) (off : Nat) :
    (t.writeAt p off).size = max t.size (off + p.length) := rfl

theorem pageOf_writeAt_self (t : TargetFile) (p : List Nat) (i : Nat)
    (hp : p.length = DatabasePageSize) :
    pageOf (t.writeAt p (i * DatabasePageSize)) i = p := by
  unfold pageOf
  have h1 : ∀ j, j < DatabasePageSize →
      (t.writeAt p (i * DatabasePageSize)).byteAt (i * DatabasePageSize + j) = p.getD j 0 := by
    intro j hj
    simp only [TargetFile.writeAt]
    have hcond : i * DatabasePageSize ≤ i * DatabasePageSize + j
        ∧ i * DatabasePageSize + j < i * DatabasePageSize + p.length :=
      ⟨Nat.le_add_right _ _, by rw [hp]; exact Nat.add_lt_add_left hj _⟩
    rw [if_pos hcond, Nat.add_sub_cancel_left]
  rw [map_range_congr _ _ _ h1, ← hp, map_range_getD]

theorem pageOf_writeAt_ne (t : TargetFile) (p : List Nat) (i j : Nat)
    (hp : p.length = DatabasePageSize) (hne : j ≠ i) :
    pageOf (t.writeAt p (i * DatabasePageSize)) j = pageOf t j := by
  unfold pageOf
  apply map_range_congr
  intro r hr
  apply byteAt_writeAt_out
  rw [hp]
  simp only [DatabasePageSize] at hr ⊢
  omega

theorem headerBytes_writeAt_ne (t : TargetFile) (p : List Nat) (i j : Nat)
    (hp : p.length = DatabasePageSize) (hne : j ≠ i) :
    headerBytes (t.writeAt p (i * DatabasePageSize)) j = headerBytes t j := by
  unfold headerBytes
  apply map_range_congr
  intro r hr
  apply byteAt_writeAt_out
  rw [hp]
  simp only [DatabasePageSize, headerSize] at hr ⊢
  omega

theorem checkIfMissingPage_eval (t : TargetFile) (b : Nat)
    (h : b * DatabasePageSize + headerSize ≤ t.size) :
    checkIfMissingPage t b
      = Except.ok (decide (headerBytes t b = List.replicate headerSize 0)) := by
  unfold checkIfMissingPage TargetFile.readAt
  rw [if_pos h]
  rfl

theorem writePage_overwrite (t : TargetFile) (b : Nat) (p rest : List Nat)
    (hp : p.length = DatabasePageSize) :
    writePage t b (p ++ rest) true
      = Except.ok (t.writeAt p (b * DatabasePageSize), rest) := by
  unfold writePage
  rw [readFull_exact p rest DatabasePageSize hp]
  rfl

theorem writePage_noOverwrite (t : TargetFile) (b : Nat) (p rest : List Nat)
    (hp : p.length = DatabasePageSize)
    (hsz : b * DatabasePageSize + headerSize ≤ t.size) :
    writePage t b (p ++ rest) false
      = Except.ok ((if headerBytes t b = List.replicate headerSize 0
          then t.writeAt p (b * DatabasePageSize) else t), rest) := by
  unfold writePage
  rw [readFull_exact p rest DatabasePageSize hp]
  show (match checkIfMissingPage t b with
    | Except.error e => Except.error e
    | Except.ok isMissingPage =>
        if isMissingPage then Except.ok (t.writeAt p (b * DatabasePageSize), rest)
        else Except.ok (t, rest)) = _
  rw [checkIfMissingPage_eval t b hsz]
  by_cases hm : headerBytes t b = List.replicate headerSize 0
  · simp [hm]
  · simp [hm]

theorem writePage_nil (t : TargetFile) (b : Nat) (ow : Bool) :
    writePage t b [] ow = Except.error PgError.eof := by
  unfold writePage
  rw [readFull_nil _ (by norm_num [DatabasePageSize])]

theorem writePage_step (t : TargetFile) (b : Nat) (p rest : List Nat) (ow : Bool)
    (hp : p.length = DatabasePageSize) (hsz : (b + 1) * DatabasePageSize ≤ t.size) :
    ∃ t2, writePage t b (p ++ rest) ow = Except.ok (t2, rest)
      ∧ t2.size = t.size ∧ (∀ j, j ≠ b → pageOf t2 j = pageOf t j) := by
  have hw : b * DatabasePageSize + DatabasePageSize ≤ t.size := by
    rw [Nat.succ_mul] at hsz
    exact hsz
  have hwsize : (t.writeAt p (b * DatabasePageSize)).size = t.size := by
    rw [size_writeAt, hp]
    exact Nat.max_eq_left hw
  cases ow with
  | true =>
      refine ⟨t.writeAt p (b * DatabasePageSize), writePage_overwrite t b p rest hp, hwsize, ?_⟩
      intro j hj
      exact pageOf_writeAt_ne t p b j hp hj
  | false =>
      have hhdr : b * DatabasePageSize + headerSize ≤ t.size := by
        have h8 : headerSize ≤ DatabasePageSize := by norm_num [headerSize, DatabasePageSize]
        omega
      refine ⟨_, writePage_noOverwrite t b p rest hp hhdr, ?_, ?_⟩
      · by_cases hm : headerBytes t b = List.replicate headerSize 0
        · rw [if_pos hm, hwsize]
        · rw [if_neg hm]
      · intro j hj
        by_cases hm : headerBytes t b = List.replicate headerSize 0
        · rw [if_pos hm]
          exact pageOf_writeAt_ne t p b j hp hj
        · rw [if_neg hm]

theorem restoreLoop_spec :
    ∀ (k i : Nat) (ps : List (List Nat)) (extra : List Nat) (t : TargetFile),
      ps.length = k →
      (∀ p ∈ ps, p.length = DatabasePageSize) →
      (i + k) * DatabasePageSize ≤ t.size →
      ∃ T, restoreLoop k i (ps.flatten ++ extra) t = Except.ok T ∧
        T.size = t.size ∧
        (∀ j, (j < i ∨ i + k ≤ j) → pageOf T j = pageOf t j) ∧
        (∀ idx, idx < k → pageOf T (i + idx)
          = if headerBytes t (i + idx) = List.replicate headerSize 0
            then ps.getD idx [] else pageOf t (i + idx)) := by
  intro k
  induction k with
  | zero =>
      intro i ps extra t hlen hps hsz
      have hnil : ps = [] := List.length_eq_zero.mp hlen
      subst hnil
      exact ⟨t, rfl, rfl, fun j _ => rfl, fun idx hidx => absurd hidx (Nat.not_lt_zero idx)⟩
  | succ k ih =>
      intro i ps extra t hlen hps hsz
      cases ps with
      | nil => simp at hlen
      | cons p pt =>
          have hp : p.length = DatabasePageSize := hps p (List.mem_cons_self p pt)
          have hpt : ∀ q ∈ pt, q.length = DatabasePageSize :=
            fun q hq => hps q (List.mem_cons_of_mem p hq)
          have hlen2 : pt.length = k := by simpa using hlen
          have hsz1 : (i + 1) * DatabasePageSize ≤ t.size := by
            have hmul : (i + 1) * DatabasePageSize ≤ (i + (k + 1)) * DatabasePageSize :=
              Nat.mul_le_mul_right _ (by omega)
            omega
          have hszb : i * DatabasePageSize + headerSize ≤ t.size := by
            simp only [DatabasePageSize, headerSize] at hsz1 ⊢
            omega
          have hwp := writePage_noOverwrite t i p (pt.flatten ++ extra) hp hszb
          have ht2size : (if headerBytes t i = List.replicate headerSize 0
              then t.writeAt p (i * DatabasePageSize) else t).size = t.size := by
            by_cases hm : headerBytes t i = List.replicate headerSize 0
            · rw [if_pos hm, size_writeAt, hp]
              apply Nat.max_eq_left
              simp only [DatabasePageSize] at hsz1 ⊢
              omega
            · rw [if_neg hm]
          have ht2page : ∀ j, j ≠ i →
              pageOf (if headerBytes t i = List.replicate headerSize 0
                then t.writeAt p (i * DatabasePageSize) else t) j = pageOf t j := by
            intro j hj
            by_cases hm : headerBytes t i = List.replicate headerSize 0
            · rw [if_pos hm]
              exact pageOf_writeAt_ne t p i j hp hj
            · rw [if_neg hm]
          have ht2hdr : ∀ j, j ≠ i →
              headerBytes (if headerBytes t i = List.replicate headerSize 0
                then t.writeAt p (i * DatabasePageSize) else t) j = headerBytes t j := by
            intro j hj
            by_cases hm : headerBytes t i = List.replicate headerSize 0
            · rw [if_pos hm]
              exact headerBytes_writeAt_ne t p i j hp hj
            · rw [if_neg hm]
          have hsz2 : ((i + 1) + k) * DatabasePageSize ≤
              (if headerBytes t i = List.replicate headerSize 0
                then t.writeAt p (i * DatabasePageSize) else t).size := by
            rw [ht2size]
            have harr : (i + 1) + k = i + (k + 1) := by omega
            rw [harr]
            exact hsz
          obtain ⟨T, hT, hTsize, houter, hinner⟩ := ih (i + 1) pt extra _ hlen2 hpt hsz2
          refine ⟨T, ?_, ?_, ?_, ?_⟩
          · have hstream : (p :: pt).flatten ++ extra = p ++ (pt.flatten ++ extra) := by simp
            rw [hstream]
            simp only [restoreLoop]
            rw [hwp]
            exact hT
          · rw [hTsize, ht2size]
          · intro j hj
            have hj2 : j < i + 1 ∨ (i + 1) + k ≤ j := by omega
            rw [houter j hj2]
            exact ht2page j (by omega)
          · intro idx hidx
            cases idx with
            | zero =>
                have hTi := houter i (Or.inl (Nat.lt_succ_self i))
                rw [Nat.add_zero, hTi]
                by_cases hm : headerBytes t i = List.replicate headerSize 0
                · rw [if_pos hm, if_pos hm]
                  exact pageOf_writeAt_self t p i hp
                · rw [if_neg hm, if_neg hm]
            | succ idx2 =>
                have hidx2 : idx2 < k := by omega
                have harith : i + (idx2 + 1) = (i + 1) + idx2 := by omega
                rw [harith, hinner idx2 hidx2, ht2hdr _ (by omega), ht2page _ (by omega)]
                rfl

theorem restoreLoop_eof :
    ∀ (k i : Nat) (ps : List (List Nat)) (t : TargetFile),
      ps.length < k →
      (∀ p ∈ ps, p.length = DatabasePageSize) →
      (i + ps.length) * DatabasePageSize ≤ t.size →
      ∃ T, restoreLoop k i ps.flatten t = Except.ok T ∧
        T.size = t.size ∧
        (∀ j, i + ps.length ≤ j → pageOf T j = pageOf t j) := by
  intro k
  induction k with
  | zero => intro i ps t hlen _ _; exact absurd hlen (Nat.not_lt_zero _)
  | succ k ih =>
      intro i ps t hlen hps hsz
      cases ps with
      | nil =>
          refine ⟨t, ?_, rfl, fun j _ => rfl⟩
          simp only [restoreLoop]
          rw [List.flatten_nil, writePage_nil]
      | cons p pt =>
          have hp : p.length = DatabasePageSize := hps p (List.mem_cons_self p pt)
          have hpt : ∀ q ∈ pt, q.length = DatabasePageSize :=
            fun q hq => hps q (List.mem_cons_of_mem p hq)
          have hsz1 : (i + 1) * DatabasePageSize ≤ t.size := by
            have hmul : (i + 1) * DatabasePageSize
                ≤ (i + (p :: pt).length) * DatabasePageSize :=
              Nat.mul_le_mul_right _ (by simp only [List.length_cons]; omega)
            omega
          obtain ⟨t2, hwp, ht2size, ht2page⟩ := writePage_step t i p pt.flatten false hp hsz1
          have hlen2 : pt.length < k := by
            have : (p :: pt).length = pt.length + 1 := rfl
            omega
          have hsz2 : ((i + 1) + pt.length) * DatabasePageSize ≤ t2.size := by
            rw [ht2size]
            have harr : (i + 1) + pt.length = i + (p :: pt).length := by simp; omega
            rw [harr]
            exact hsz
          obtain ⟨T, hT, hTsize, houter⟩ := ih (i + 1) pt t2 hlen2 hpt hsz2
          refine ⟨T, ?_, ?_, ?_⟩
          · have hstream : (p :: pt).flatten = p ++ pt.flatten := by simp
            rw [hstream]
            simp only [restoreLoop]
            rw [hwp]
            exact hT
          · rw [hTsize, ht2size]
          · intro j hj
            have hj2 : (i + 1) + pt.length ≤ j := by
              have : (p :: pt).length = pt.length + 1 := rfl
              omega
            rw [houter j hj2]
            exact ht2page j (by
              have : (p :: pt).length = pt.length + 1 := rfl
              omega)

theorem createLoop_spec (bns : List Nat) (hasc : List.Pairwise (fun a b => a < b) bns) :
    ∀ (k i : Nat) (bns1 bns2 : List Nat) (ps2 : List (List Nat)) (extra : List Nat)
      (t : TargetFile),
      bns = bns1 ++ bns2 →
      (∀ b ∈ bns1, b < i) →
      (∀ b ∈ bns2, i ≤ b ∧ b < i + k) →
      ps2.length = bns2.length →
      (∀ p ∈ ps2, p.length = DatabasePageSize) →
      ∃ T, createLoop bns k i (ps2.flatten ++ extra) t = Except.ok (T, extra) ∧
        (k = 0 → T = t) ∧
        (k ≠ 0 → T.size = max t.size ((i + k) * DatabasePageSize)) ∧
        (∀ j, j < i → pageOf T j = pageOf t j) ∧
        (∀ bp ∈ List.zip bns2 ps2, pageOf T bp.1 = bp.2) ∧
        (∀ j, i ≤ j → j < i + k → ¬ j ∈ bns → pageOf T j = zeroPage) := by
  intro k
  induction k with
  | zero =>
      intro i bns1 bns2 ps2 extra t hsplit hb1 hb2 hlen hps
      have hbn2 : bns2 = [] := by
        cases bns2 with
        | nil => rfl
        | cons b bt =>
            have hbb := hb2 b (List.mem_cons_self b bt)
            omega
      subst hbn2
      have hps2 : ps2 = [] := List.length_eq_zero.mp (by simpa using hlen)
      subst hps2
      refine ⟨t, rfl, fun _ => rfl, fun h0 => absurd rfl h0, fun j _ => rfl, ?_, ?_⟩
      · intro bp hbp
        simp at hbp
      · intro j h1 h2 _
        omega
  | succ k ih =>
      intro i bns1 bns2 ps2 extra t hsplit hb1 hb2 hlen hps
      by_cases hmem : i ∈ bns
      · have hpw := hasc
        rw [hsplit] at hpw
        have hpw2 := (List.pairwise_append.mp hpw).2.1
        have hmem2 : i ∈ bns2 := by
          rcases List.mem_append.mp (hsplit ▸ hmem) with h1 | h2
          · exact absurd (hb1 i h1) (lt_irrefl i)
          · exact h2
        cases bns2 with
        | nil => exact absurd hmem2 (List.not_mem_nil i)
        | cons b0 bt =>
            have hb0 : b0 = i := by
              rcases List.mem_cons.mp hmem2 with he | hmt
              · exact he.symm
              · have hblt := (List.pairwise_cons.mp hpw2).1 i hmt
                have hge := (hb2 b0 (List.mem_cons_self b0 bt)).1
                omega
            subst hb0
            have htail : ∀ y ∈ bt, b0 < y := (List.pairwise_cons.mp hpw2).1
            cases ps2 with
            | nil => simp at hlen
            | cons p pt =>
                have hp : p.length = DatabasePageSize := hps p (List.mem_cons_self p pt)
                have hpt : ∀ q ∈ pt, q.length = DatabasePageSize :=
                  fun q hq => hps q (List.mem_cons_of_mem p hq)
                have hlen2 : pt.length = bt.length := by simpa using hlen
                have hsplit2 : bns = (bns1 ++ [b0]) ++ bt := by
                  rw [hsplit, List.append_assoc]
                  rfl
                have hb12 : ∀ b ∈ bns1 ++ [b0], b < b0 + 1 := by
                  intro b hb
                  rcases List.mem_append.mp hb with h1 | h2
                  · have := hb1 b h1
                    omega
                  · simp at h2
                    omega
                have hb22 : ∀ b ∈ bt, b0 + 1 ≤ b ∧ b < (b0 + 1) + k := by
                  intro b hb
                  have h1 := htail b hb
                  have h2 := (hb2 b (List.mem_cons_of_mem b0 hb)).2
                  omega
                obtain ⟨T, hT, hT0, hTs, hpres, hzip, hzero⟩ :=
                  ih (b0 + 1) (bns1 ++ [b0]) bt pt extra
                    (t.writeAt p (b0 * DatabasePageSize)) hsplit2 hb12 hb22 hlen2 hpt
                refine ⟨T, ?_, ?_, ?_, ?_, ?_, ?_⟩
                · have hstream : (p :: pt).flatten ++ extra = p ++ (pt.flatten ++ extra) := by
                    simp
                  rw [hstream]
                  simp only [createLoop]
                  rw [if_pos hmem, writePage_overwrite t b0 p _ hp]
                  exact hT
                · intro h0
                  exact absurd h0 (Nat.succ_ne_zero k)
                · intro _
                  by_cases hk : k = 0
                  · subst hk
                    rw [hT0 rfl, size_writeAt, hp]
                    simp only [DatabasePageSize]
                    omega
                  · rw [hTs hk, size_writeAt, hp]
                    simp only [DatabasePageSize]
                    omega
                · intro j hj
                  rw [hpres j (by omega)]
                  exact pageOf_writeAt_ne t p b0 j hp (by omega)
                · intro bp hbp
                  rw [List.zip_cons_cons] at hbp
                  rcases List.mem_cons.mp hbp with he | hmt
                  · subst he
                    have hTi := hpres b0 (by omega)
                    rw [hTi]
                    exact pageOf_writeAt_self t p b0 hp
                  · exact hzip bp hmt
                · intro j hij hjk hnm
                  have hji : j ≠ b0 := fun he => hnm (he ▸ hmem)
                  exact hzero j (by omega) (by omega) hnm
      · have hb22 : ∀ b ∈ bns2, i + 1 ≤ b ∧ b < (i + 1) + k := by
          intro b hb
          have h1 := hb2 b hb
          have hbi : b ≠ i := by
            intro he
            apply hmem
            rw [hsplit]
            exact List.mem_append.mpr (Or.inr (he ▸ hb))
          omega
        have hb12 : ∀ b ∈ bns1, b < i + 1 := fun b hb => by
          have := hb1 b hb
          omega
        have hzl : zeroPage.length = DatabasePageSize := List.length_replicate _ _
        obtain ⟨T, hT, hT0, hTs, hpres, hzip, hzero⟩ :=
          ih (i + 1) bns1 bns2 ps2 extra
            (t.writeAt zeroPage (i * DatabasePageSize)) hsplit hb12 hb22 hlen hps
        refine ⟨T, ?_, ?_, ?_, ?_, ?_, ?_⟩
        · simp only [createLoop]
          rw [if_neg hmem]
          exact hT
        · intro h0
          exact absurd h0 (Nat.succ_ne_zero k)
        · intro _
          by_cases hk : k = 0
          · subst hk
            rw [hT0 rfl, size_writeAt, hzl]
            simp only [DatabasePageSize]
            omega
          · rw [hTs hk, size_writeAt, hzl]
            simp only [DatabasePageSize]
            omega
        · intro j hj
          rw [hpres j (by omega)]
          exact pageOf_writeAt_ne t zeroPage i j hzl (by omega)
        · exact hzip
        · intro j hij hjk hnm
          by_cases hji : j = i
          · subst hji
            rw [hpres j (by omega)]
            exact pageOf_writeAt_self t zeroPage j hzl
          · exact hzero j (by omega) (by omega) hnm

theorem writePagesLoop_spec (pc : Nat) (ow : Bool) :
    ∀ (bns : List Nat) (ps : List (List Nat)) (extra : List Nat) (t : TargetFile),
      ps.length = bns.length →
      (∀ p ∈ ps, p.length = DatabasePageSize) →
      pc * DatabasePageSize ≤ t.size →
      ∃ T, writePagesLoop pc ow bns (ps.flatten ++ extra) t = Except.ok (T, extra) ∧
        T.size = t.size ∧
        (∀ j, (¬ j ∈ bns ∨ pc ≤ j) → pageOf T j = pageOf t j) := by
  intro bns
  induction bns with
  | nil =>
      intro ps extra t hlen hps hpc
      have hnil : ps = [] := List.length_eq_zero.mp (by simpa using hlen)
      subst hnil
      exact ⟨t, rfl, rfl, fun j _ => rfl⟩
  | cons b bt ih =>
      intro ps extra t hlen hps hpc
      cases ps with
      | nil => simp at hlen
      | cons p pt =>
          have hp : p.length = DatabasePageSize := hps p (List.mem_cons_self p pt)
          have hpt : ∀ q ∈ pt, q.length = DatabasePageSize :=
            fun q hq => hps q (List.mem_cons_of_mem p hq)
          have hlen2 : pt.length = bt.length := by simpa using hlen
          have hstream : (p :: pt).flatten ++ extra = p ++ (pt.flatten ++ extra) := by simp
          by_cases hb : pc ≤ b
          · obtain ⟨T, hT, hTs, hTp⟩ := ih pt extra t hlen2 hpt hpc
            refine ⟨T, ?_, hTs, ?_⟩
            · rw [hstream]
              simp only [writePagesLoop]
              rw [if_pos hb, copyNDiscard_exact p _ DatabasePageSize hp]
              exact hT
            · intro j hj
              apply hTp
              rcases hj with h1 | h2
              · exact Or.inl (fun hjm => h1 (List.mem_cons_of_mem b hjm))
              · exact Or.inr h2
          · have hbs : (b + 1) * DatabasePageSize ≤ t.size := by
              have hmul : (b + 1) * DatabasePageSize ≤ pc * DatabasePageSize :=
                Nat.mul_le_mul_right _ (by omega)
              omega
            obtain ⟨t2, hwp, ht2s, ht2p⟩ :=
              writePage_step t b p (pt.flatten ++ extra) ow hp hbs
            obtain ⟨T, hT, hTs, hTp⟩ := ih pt extra t2 hlen2 hpt (by rw [ht2s]; exact hpc)
            refine ⟨T, ?_, by rw [hTs, ht2s], ?_⟩
            · rw [hstream]
              simp only [writePagesLoop]
              rw [if_neg hb, hwp]
              exact hT
            · intro j hj
              have hjb : j ≠ b := by
                rcases hj with h1 | h2
                · exact fun he => h1 (he ▸ List.mem_cons_self b bt)
                · omega
              have hTt2 : pageOf T j = pageOf t2 j := by
                apply hTp
                rcases hj with h1 | h2
                · exact Or.inl (fun hjm => h1 (List.mem_cons_of_mem b hjm))
                · exact Or.inr h2
              rw [hTt2]
              exact ht2p j hjb

theorem CreateFileFromIncrement_eval (inc : List Nat) (t : TargetFile)
    (fs n : Nat) (dm rest : List Nat)
    (h : getIncrementHeaderFields inc = Except.ok (fs, n, dm, rest)) :
    CreateFileFromIncrement inc t =
      match createLoop (decodeDiffMap n dm) (fs / DatabasePageSize) 0 rest t with
      | Except.error e => Except.error e
      | Except.ok (t2, _) => Except.ok t2 := by
  unfold CreateFileFromIncrement
  rw [h]

theorem WritePagesFromIncrement_eval (inc : List Nat) (t : TargetFile) (ow : Bool)
    (fs n : Nat) (dm rest : List Nat)
    (h : getIncrementHeaderFields inc = Except.ok (fs, n, dm, rest)) :
    WritePagesFromIncrement inc t ow =
      match writePagesLoop (getPageCount t) ow (decodeDiffMap n dm) rest t with
      | Except.error e => Except.error e
      | Except.ok (t2, rest2) =>
          if isTarReaderEmpty rest2 then Except.ok t2
          else Except.error PgError.unexpectedTarData := by
  unfold WritePagesFromIncrement
  rw [h]

/-! ### Claim theorems: page-file reconstruction -/

/-- C1: for every well-formed increment stream with header fields
`fileSize` and diffMap, `CreateFileFromIncrement` writes the next page
body from the increment at offset `i * DatabasePageSize` for every
page index `i < fileSize / DatabasePageSize` in the diffMap, and an
all-zero page at that offset for every such `i` not in the diffMap, so
the target holds exactly `fileSize / DatabasePageSize` pages of which
precisely the diffMap pages carry increment content.  The stream is
restricted to `diffBlockCount < 2 ^ 30` (where the source's `uint32`
diffMap-length product does not wrap) and `fileSize < 2 ^ 63` (where
the source's `int64` write offsets do not overflow). -/
theorem c1_create_file_from_increment
    (fileSize : Nat) (bns : List Nat) (ps : List (List Nat))
    (hfs : fileSize < 2 ^ 63)
    (hcnt : bns.length < 2 ^ 30)
    (hasc : List.Chain' (fun a b => a < b) bns)
    (hbound : ∀ b ∈ bns, b < fileSize / DatabasePageSize)
    (hb32 : ∀ b ∈ bns, b < 2 ^ 32)
    (hlen : ps.length = bns.length)
    (hps : ∀ p ∈ ps, p.length = DatabasePageSize) :
    ∃ T, CreateFileFromIncrement (encodeIncrement fileSize bns ps) emptyTarget
        = Except.ok T ∧
      T.size = (fileSize / DatabasePageSize) * DatabasePageSize ∧
      (∀ bp ∈ List.zip bns ps, pageOf T bp.1 = bp.2) ∧
      (∀ i, i < fileSize / DatabasePageSize → ¬ i ∈ bns → pageOf T i = zeroPage) := by
  have hpw : List.Pairwise (fun a b => a < b) bns := List.chain'_iff_pairwise.mp hasc
  have hfs64 : fileSize < 2 ^ 64 := lt_trans hfs (by norm_num)
  have hdec := getIncrementHeaderFields_encode fileSize bns ps [] hfs64 hcnt
  simp only [List.append_nil] at hdec
  obtain ⟨T, hT, hT0, hTs, _, hzip, hzero⟩ :=
    createLoop_spec bns hpw (fileSize / DatabasePageSize) 0 [] bns ps [] emptyTarget
      rfl (fun b hb => absurd hb (List.not_mem_nil b))
      (fun b hb => ⟨Nat.zero_le b, by have := hbound b hb; omega⟩) hlen hps
  simp only [List.append_nil] at hT
  refine ⟨T, ?_, ?_, hzip, ?_⟩
  · rw [CreateFileFromIncrement_eval _ _ _ _ _ _ hdec, decodeDiffMap_encode bns hcnt hb32, hT]
  · by_cases hpc : fileSize / DatabasePageSize = 0
    · rw [hpc, Nat.zero_mul, hT0 hpc]
      rfl
    · rw [hTs hpc]
      show max 0 ((0 + fileSize / DatabasePageSize) * DatabasePageSize) = _
      rw [Nat.zero_add, Nat.zero_max]
  · intro i hi hni
    exact hzero i (Nat.zero_le i) (by omega) hni

/-- C6: for every well-formed increment and existing target,
`WritePagesFromIncrement` writes page bodies only at offsets
`blockNo * DatabasePageSize` for blockNos in the diffMap, consumes and
discards page bodies for diffMap entries at or past the target's page
count without writing them, and leaves every other page of the target
(and its size) untouched.  The stream is restricted to
`diffBlockCount < 2 ^ 30`, where the source's `uint32` diffMap-length
product does not wrap. -/
theorem c6_write_pages_from_increment
    (fileSize : Nat) (bns : List Nat) (ps : List (List Nat)) (t : TargetFile) (ow : Bool)
    (hfs : fileSize < 2 ^ 64) (hcnt : bns.length < 2 ^ 30)
    (hb32 : ∀ b ∈ bns, b < 2 ^ 32)
    (hlen : ps.length = bns.length)
    (hps : ∀ p ∈ ps, p.length = DatabasePageSize) :
    ∃ T, WritePagesFromIncrement (encodeIncrement fileSize bns ps) t ow = Except.ok T ∧
      T.size = t.size ∧
      (∀ j, (¬ j ∈ bns ∨ getPageCount t ≤ j) → pageOf T j = pageOf t j) := by
  have hdec := getIncrementHeaderFields_encode fileSize bns ps [] hfs hcnt
  simp only [List.append_nil] at hdec
  obtain ⟨T, hT, hTs, hTp⟩ :=
    writePagesLoop_spec (getPageCount t) ow bns ps [] t hlen hps
      (Nat.div_mul_le_self t.size DatabasePageSize)
  simp only [List.append_nil] at hT
  refine ⟨T, ?_, hTs, hTp⟩
  rw [WritePagesFromIncrement_eval _ _ _ _ _ _ _ hdec, decodeDiffMap_encode bns hcnt hb32, hT]
  rfl

/-- C9: once the header parses, `WritePagesFromIncrement` returns
`UnexpectedTarDataError` exactly when bytes remain in the increment
after all diffMap entries have been processed, and returns `ok` only
when the increment is exactly exhausted.  The stream is restricted to
`diffBlockCount < 2 ^ 30`, where the source's `uint32` diffMap-length
product does not wrap. -/
theorem c9_write_pages_exhaustion
    (fileSize : Nat) (bns : List Nat) (ps : List (List Nat)) (extra : List Nat)
    (t : TargetFile) (ow : Bool)
    (hfs : fileSize < 2 ^ 64) (hcnt : bns.length < 2 ^ 30)
    (hb32 : ∀ b ∈ bns, b < 2 ^ 32)
    (hlen : ps.length = bns.length)
    (hps : ∀ p ∈ ps, p.length = DatabasePageSize) :
    (extra = [] → ∃ T,
      WritePagesFromIncrement (encodeIncrement fileSize bns ps ++ extra) t ow
        = Except.ok T) ∧
    (extra ≠ [] →
      WritePagesFromIncrement (encodeIncrement fileSize bns ps ++ extra) t ow
        = Except.error PgError.unexpectedTarData) := by
  have hdec := getIncrementHeaderFields_encode fileSize bns ps extra hfs hcnt
  obtain ⟨T, hT, _, _⟩ :=
    writePagesLoop_spec (getPageCount t) ow bns ps extra t hlen hps
      (Nat.div_mul_le_self t.size DatabasePageSize)
  constructor
  · intro he
    subst he
    refine ⟨T, ?_⟩
    rw [WritePagesFromIncrement_eval _ _ _ _ _ _ _ hdec, decodeDiffMap_encode bns hcnt hb32, hT]
    rfl
  · intro hne
    rw [WritePagesFromIncrement_eval _ _ _ _ _ _ _ hdec, decodeDiffMap_encode bns hcnt hb32, hT]
    cases extra with
    | nil => exact absurd rfl hne
    | cons c cs => rfl

/-- C7: `RestoreMissingPages` walks the target from block 0 through its
last full page, consuming exactly one page of the base stream per
block, writing it when the block's first 8 header bytes are zero and
discarding it otherwise, and stops after the target's last block. -/
theorem c7_restore_missing_pages
    (ps : List (List Nat)) (extra : List Nat) (t : TargetFile)
    (hlen : ps.length = getPageCount t)
    (hps : ∀ p ∈ ps, p.length = DatabasePageSize) :
    ∃ T, RestoreMissingPages (ps.flatten ++ extra) t = Except.ok T ∧
      T.size = t.size ∧
      (∀ idx, idx < getPageCount t → pageOf T idx
        = if headerBytes t idx = List.replicate headerSize 0
          then ps.getD idx [] else pageOf t idx) ∧
      (∀ j, getPageCount t ≤ j → pageOf T j = pageOf t j) := by
  obtain ⟨T, hT, hs, houter, hinner⟩ :=
    restoreLoop_spec (getPageCount t) 0 ps extra t hlen hps
      (by rw [Nat.zero_add]; exact Nat.div_mul_le_self t.size DatabasePageSize)
  refine ⟨T, hT, hs, ?_, ?_⟩
  · intro idx hidx
    have hi := hinner idx hidx
    rwa [Nat.zero_add] at hi
  · intro j hj
    exact houter j (Or.inr (by omega))

/-- C10: when the base stream holds fewer whole pages than the target
has blocks, `RestoreMissingPages` returns `ok`: the end-of-file while
reading a page ends the walk early and the remaining target blocks are
left unmodified. -/
theorem c10_restore_missing_pages_eof
    (ps : List (List Nat)) (t : TargetFile)
    (hlt : ps.length < getPageCount t)
    (hps : ∀ p ∈ ps, p.length = DatabasePageSize) :
    ∃ T, RestoreMissingPages ps.flatten t = Except.ok T ∧
      (∀ j, ps.length ≤ j → pageOf T j = pageOf t j) := by
  obtain ⟨T, hT, _, houter⟩ :=
    restoreLoop_eof (getPageCount t) 0 ps t hlt hps
      (by
        rw [Nat.zero_add]
        have h1 : ps.length * DatabasePageSize ≤ getPageCount t * DatabasePageSize :=
          Nat.mul_le_mul_right _ (Nat.le_of_lt hlt)
        have h2 : getPageCount t * DatabasePageSize ≤ t.size :=
          Nat.div_mul_le_self t.size DatabasePageSize
        omega)
  exact ⟨T, hT, fun j hj => houter j (by omega)⟩

/-! ### Claim theorems: uploader retry policy and failure latch -/

theorem uploadGo_s3 (putResult : Nat → Option Nat) :
    uploadGo putResult 3 0 none =
      (match putResult 0 with
      | none => ((none : Option Nat), 1)
      | some e =>
          ((uploadGo putResult 2 1 (some e)).1, (uploadGo putResult 2 1 (some e)).2 + 1)) :=
  rfl

theorem uploadGo_s2 (putResult : Nat → Option Nat) (e : Nat) :
    uploadGo putResult 2 1 (some e) =
      (match putResult 1 with
      | none => ((none : Option Nat), 1)
      | some e1 =>
          ((uploadGo putResult 1 2 (some e1)).1, (uploadGo putResult 1 2 (some e1)).2 + 1)) :=
  rfl

theorem uploadGo_s1 (putResult : Nat → Option Nat) (e : Nat) :
    uploadGo putResult 1 2 (some e) =
      (match putResult 2 with
      | none => ((none : Option Nat), 1)
      | some e2 => (some e2, 1)) :=
  rfl

/-- C2: `Uploader.Upload` makes at most 3 `PutObject` attempts; when
some attempt succeeds it returns `nil` and the `Failed` flag stays
false, and when all 3 attempts fail it returns the error of the last
attempt and stores true into the `Failed` flag. -/
theorem c2_upload_retry_policy (putResult : Nat → Option Nat) :
    (Upload putResult false).attempts ≤ retries ∧
    ((∃ i, i < retries ∧ putResult i = none) →
      (Upload putResult false).ret = none ∧ (Upload putResult false).failed = false) ∧
    ((∀ i, i < retries → putResult i ≠ none) →
      (Upload putResult false).ret = putResult 2 ∧ (Upload putResult false).failed = true) := by
  cases h0 : putResult 0 with
  | none =>
      have hU : Upload putResult false = { ret := none, failed := false, attempts := 1 } := by
        simp only [Upload, retries, uploadGo_s3, h0]
      refine ⟨by rw [hU]; decide, fun _ => by rw [hU]; exact ⟨rfl, rfl⟩, ?_⟩
      intro hall
      exact absurd h0 (hall 0 (by decide))
  | some e0 =>
      cases h1 : putResult 1 with
      | none =>
          have hU : Upload putResult false = { ret := none, failed := false, attempts := 2 } := by
            simp only [Upload, retries, uploadGo_s3, h0, uploadGo_s2, h1]
          refine ⟨by rw [hU]; decide, fun _ => by rw [hU]; exact ⟨rfl, rfl⟩, ?_⟩
          intro hall
          exact absurd h1 (hall 1 (by decide))
      | some e1 =>
          cases h2 : putResult 2 with
          | none =>
              have hU : Upload putResult false
                  = { ret := none, failed := false, attempts := 3 } := by
                simp only [Upload, retries, uploadGo_s3, h0, uploadGo_s2, h1, uploadGo_s1, h2]
              refine ⟨by rw [hU]; decide, fun _ => by rw [hU]; exact ⟨rfl, rfl⟩, ?_⟩
              intro hall
              exact absurd h2 (hall 2 (by decide))
          | some e2 =>
              have hU : Upload putResult false
                  = { ret := some e2, failed := true, attempts := 3 } := by
                simp only [Upload, retries, uploadGo_s3, h0, uploadGo_s2, h1, uploadGo_s1, h2]
              refine ⟨by rw [hU]; exact (by decide : (3 : Nat) ≤ retries), ?_, ?_⟩
              · intro hex
                obtain ⟨i, hi, hnone⟩ := hex
                have hi2 : i = 0 ∨ i = 1 ∨ i = 2 := by
                  simp only [retries] at hi
                  omega
                rcases hi2 with rfl | rfl | rfl
                · rw [h0] at hnone; exact absurd hnone (by simp)
                · rw [h1] at hnone; exact absurd hnone (by simp)
                · rw [h2] at hnone; exact absurd hnone (by simp)
              · intro _
                rw [hU]
                exact ⟨rfl, rfl⟩

/-- C8: the uploader's `Failed` flag is write-once-true: it starts
false at construction, the only transition `Upload` (and thus
`uploadMultiple`) performs is storing true, and no operation resets it
from true back to false. -/
theorem c8_failed_write_once :
    NewUploader.failed = false ∧
    (∀ putResult f0, (Upload putResult f0).failed = f0
      ∨ (Upload putResult f0).failed = true) ∧
    (∀ putResult f0, f0 = true → (Upload putResult f0).failed = true) ∧
    (∀ putResults st, st.failed = true → (uploadMultiple putResults st).2.failed = true) := by
  have hmono : ∀ (p : Nat → Option Nat) (f0 : Bool), f0 = true → (Upload p f0).failed = true := by
    intro p f0 hf
    subst hf
    unfold Upload
    rcases hg : uploadGo p retries 0 none with ⟨r, n⟩
    cases r with
    | none => rfl
    | some e => rfl
  refine ⟨rfl, ?_, hmono, ?_⟩
  · intro p f0
    unfold Upload
    rcases hg : uploadGo p retries 0 none with ⟨r, n⟩
    cases r with
    | none => exact Or.inl rfl
    | some e => exact Or.inr rfl
  · intro putResults
    induction putResults with
    | nil => intro st h; exact h
    | cons r rest ih =>
        intro st h
        have hu : (Upload r st.failed).failed = true := hmono r st.failed h
        show (match (Upload r st.failed).ret with
          | some e => ((some e : Option Nat), ({ failed := (Upload r st.failed).failed } : UploaderState))
          | none => uploadMultiple rest { failed := (Upload r st.failed).failed }).2.failed = true
        rcases hr : (Upload r st.failed).ret with _ | e
        · exact ih { failed := (Upload r st.failed).failed } hu
        · exact hu

/-! ### Claim theorems: version-gated control queries -/

/-- C4: the control queries are gated by server version exactly as
specified: version ≥ 100000 gets the three-argument
`pg_start_backup($1, true, false)` with `pg_walfile_name_offset`;
90600 ≤ version < 100000 the `pg_xlogfile_name_offset` variant;
90000 ≤ version < 90600 the two-argument `pg_start_backup($1, true)`
and the stop query whose `pg_stop_backup()` yields only the lsn; and
any set (non-zero) version below 90000 gets
`UnsupportedPostgresVersionError` from both builders. -/
theorem c4_version_gated_queries (version : Int) :
    (100000 ≤ version →
      BuildStartBackup version = Except.ok startBackupQuery10) ∧
    (90600 ≤ version → version < 100000 →
      BuildStartBackup version = Except.ok startBackupQuery96) ∧
    (90000 ≤ version → version < 90600 →
      BuildStartBackup version = Except.ok startBackupQuery90 ∧
      BuildStopBackup version = Except.ok stopBackupQuery90) ∧
    (version < 90000 → version ≠ 0 →
      BuildStartBackup version
          = Except.error (BackupQueryError.unsupportedPostgresVersion version) ∧
      BuildStopBackup version
          = Except.error (BackupQueryError.unsupportedPostgresVersion version)) ∧
    strHasSub ("pg_walfile_name_offset") startBackupQuery10 ∧
    strHasSub ("pg_start_backup($1, true, false)") startBackupQuery10 ∧
    strHasSub ("pg_xlogfile_name_offset") startBackupQuery96 ∧
    strHasSub ("pg_start_backup($1, true, false)") startBackupQuery96 ∧
    strHasSub ("FROM pg_start_backup($1, true) lsn") startBackupQuery90 ∧
    strHasSub ("FROM pg_stop_backup() lsn") stopBackupQuery90 := by
  refine ⟨?_, ?_, ?_, ?_, ?_, ?_, ?_, ?_, ?_, ?_⟩
  · intro h
    unfold BuildStartBackup
    rw [if_pos h]
  · intro h1 h2
    unfold BuildStartBackup
    rw [if_neg (by omega), if_pos h1]
  · intro h1 h2
    constructor
    · unfold BuildStartBackup
      rw [if_neg (by omega), if_neg (by omega), if_pos h1]
    · unfold BuildStopBackup
      rw [if_neg (by omega), if_pos h1]
  · intro h1 h2
    constructor
    · unfold BuildStartBackup
      rw [if_neg (by omega), if_neg (by omega), if_neg (by omega), if_neg h2]
    · unfold BuildStopBackup
      rw [if_neg (by omega), if_neg (by omega), if_neg h2]
  · exact ⟨"SELECT case when pg_is_in_recovery() then '' else (",
      "(lsn)).file_name end, lsn::text, pg_is_in_recovery() FROM pg_start_backup($1, true, false) lsn",
      rfl⟩
  · exact ⟨"SELECT case when pg_is_in_recovery() then '' else (pg_walfile_name_offset(lsn)).file_name end, lsn::text, pg_is_in_recovery() FROM ",
      " lsn", rfl⟩
  · exact ⟨"SELECT case when pg_is_in_recovery() then '' else (",
      "(lsn)).file_name end, lsn::text, pg_is_in_recovery() FROM pg_start_backup($1, true, false) lsn",
      rfl⟩
  · exact ⟨"SELECT case when pg_is_in_recovery() then '' else (pg_xlogfile_name_offset(lsn)).file_name end, lsn::text, pg_is_in_recovery() FROM ",
      " lsn", rfl⟩
  · exact ⟨"SELECT case when pg_is_in_recovery() then '' else (pg_xlogfile_name_offset(lsn)).file_name end, lsn::text, pg_is_in_recovery() ",
      "", rfl⟩
  · exact ⟨"SELECT (pg_xlogfile_name_offset(lsn)).file_name, lpad((pg_xlogfile_name_offset(lsn)).file_offset::text, 8, '0') AS file_offset, lsn::text ",
      "", rfl⟩

/-! ### Claim theorems: WAL overwrite protection -/

/-- C5: with `PREVENT_WAL_OVERWRITE` set, `uploadWALFile` returns
`CantOverwriteWalFileError` exactly when an archived object exists
whose decompressed content differs from the local bytes; with equal
content it returns nil without uploading; with no archived object the
upload proceeds. -/
theorem c5_prevent_wal_overwrite (d : DownloadResult) (localBytes : List Nat)
    (uploadOk : Bool) :
    ((uploadWALFile true d localBytes uploadOk).1 = some WalPushError.cantOverwriteWalFile
      ↔ ∃ c, d = DownloadResult.found c ∧ c ≠ localBytes) ∧
    (d = DownloadResult.found localBytes →
      uploadWALFile true d localBytes uploadOk = (none, false)) ∧
    (d = DownloadResult.absent →
      (uploadWALFile true d localBytes uploadOk).2 = true ∧
      (uploadWALFile true d localBytes uploadOk).1
        = (if uploadOk then none else some WalPushError.uploadFailure)) := by
  cases d with
  | found c =>
      by_cases hc : c = localBytes
      · subst hc
        refine ⟨?_, fun _ => by simp [uploadWALFile, checkWALOverwrite], by simp⟩
        simp [uploadWALFile, checkWALOverwrite]
      · refine ⟨?_, fun he => ?_, by simp⟩
        · simp only [uploadWALFile, checkWALOverwrite, if_neg hc]
          constructor
          · intro _
            exact ⟨c, rfl, hc⟩
          · intro _
            rfl
        · exact absurd (by injection he) hc
  | absent =>
      refine ⟨?_, by simp, fun _ => ?_⟩
      · simp only [uploadWALFile, checkWALOverwrite]
        constructor
        · intro h
          cases uploadOk with
          | true => simp at h
          | false => simp at h
        · intro ⟨c, hc, _⟩
          simp at hc
      · exact ⟨rfl, rfl⟩
  | failed =>
      refine ⟨?_, by simp, by simp⟩
      simp only [uploadWALFile, checkWALOverwrite]
      constructor
      · intro h
        simp [toWalPushError] at h
      · intro ⟨c, hc, _⟩
        simp at hc

/-! ### Claim theorems: increment decoder checks -/

theorem ReadIncrementFileHeader_bad (s : List Nat) (hlen : 4 ≤ s.length)
    (hne : ¬ s.take 4 = IncrementFileHeader) :
    ReadIncrementFileHeader s = Except.error PgError.invalidIncrementFileHeader := by
  unfold ReadIncrementFileHeader
  have h2 : readFull 4 s = Except.ok (s.take 4, s.drop 4) := by
    unfold readFull
    rw [if_pos hlen]
  rw [h2]
  show (if s.take 4 = IncrementFileHeader then Except.ok (s.drop 4)
    else Except.error PgError.invalidIncrementFileHeader) = _
  rw [if_neg hne]

theorem ReadIncrementFileHeader_short (s : List Nat) (hlen : ¬ 4 ≤ s.length) :
    ∃ e, ReadIncrementFileHeader s = Except.error e := by
  unfold ReadIncrementFileHeader readFull
  rw [if_neg hlen]
  by_cases h0 : s.length = 0
  · rw [if_pos h0]
    exact ⟨PgError.eof, rfl⟩
  · rw [if_neg h0]
    exact ⟨PgError.unexpectedEOF, rfl⟩

/-- C3 (amended): on decode the only structural check is the 4-byte
magic/version marker: a stream of at least 4 bytes whose marker is not
the accepted header is rejected with the invalid-header error, and any
stream that decodes successfully carried the accepted marker.  The
decoder does not check that the diffMap is strictly ascending, nor
that `diffBlockCount` pages fit in the bytes remaining after the
header. -/
theorem c3_decoder_header_whitelist (s : List Nat) :
    (4 ≤ s.length → ¬ s.take 4 = IncrementFileHeader →
      getIncrementHeaderFields s = Except.error PgError.invalidIncrementFileHeader) ∧
    (∀ fs n dm rest, getIncrementHeaderFields s = Except.ok (fs, n, dm, rest) →
      s.take 4 = IncrementFileHeader) := by
  constructor
  · intro hlen hne
    unfold getIncrementHeaderFields
    rw [ReadIncrementFileHeader_bad s hlen hne]
  · intro fs n dm rest hok
    by_cases hh : s.take 4 = IncrementFileHeader
    · exact hh
    · exfalso
      by_cases hlen : 4 ≤ s.length
      · unfold getIncrementHeaderFields at hok
        rw [ReadIncrementFileHeader_bad s hlen hh] at hok
        simp at hok
      · obtain ⟨e, hbad⟩ := ReadIncrementFileHeader_short s hlen
        unfold getIncrementHeaderFields at hok
        rw [hbad] at hok
        simp at hok

/-- C3 counterexample: the decoder accepts `badIncrementStream` even
though its diffMap block numbers `[1, 0]` are not strictly ascending
and `diffBlockCount * DatabasePageSize` exceeds the zero remaining
bytes, so neither of those invariants is enforced on decode. -/
theorem c3_counterexample :
    getIncrementHeaderFields badIncrementStream
      = Except.ok (16384, 2, [1, 0, 0, 0, 0, 0, 0, 0], ([] : List Nat)) ∧
    decodeDiffMap 2 [1, 0, 0, 0, 0, 0, 0, 0] = [1, 0] ∧
    ¬ List.Chain' (fun a b => a < b) [1, 0] ∧
    ¬ (2 * DatabasePageSize ≤ List.length ([] : List Nat)) := by
  refine ⟨by rfl, by rfl, ?_, by decide⟩
  intro hch
  have h10 : (1 : Nat) < 0 := List.chain'_cons.mp hch |>.1
  omega

/-! ### Witnesses -/

theorem c1_witness :
    ((16384 : Nat) < 2 ^ 63 ∧ ([1] : List Nat).length < 2 ^ 30
      ∧ List.Chain' (fun a b => a < b) [1]) ∧
    (∃ T, CreateFileFromIncrement
        (encodeIncrement 16384 [1] [List.replicate DatabasePageSize 7]) emptyTarget
        = Except.ok T ∧
      T.size = (16384 / DatabasePageSize) * DatabasePageSize ∧
      (∀ bp ∈ List.zip [1] [List.replicate DatabasePageSize 7], pageOf T bp.1 = bp.2) ∧
      (∀ i, i < 16384 / DatabasePageSize → ¬ i ∈ [1] → pageOf T i = zeroPage)) :=
  ⟨⟨by decide, by decide, List.chain'_singleton 1⟩,
    c1_create_file_from_increment 16384 [1] [List.replicate DatabasePageSize 7]
      (by decide) (by decide) (List.chain'_singleton 1)
      (by intro b hb; rw [List.mem_singleton] at hb; subst hb; decide)
      (by intro b hb; rw [List.mem_singleton] at hb; subst hb; decide)
      rfl
      (by intro p hp; rw [List.mem_singleton] at hp; subst hp
          exact List.length_replicate _ _)⟩

theorem c2_witness :
    ((∃ i, i < retries ∧ (fun i => if i = 1 then (none : Option Nat) else some 7) i = none) ∧
      (Upload (fun i => if i = 1 then (none : Option Nat) else some 7) false).ret = none ∧
      (Upload (fun i => if i = 1 then (none : Option Nat) else some 7) false).failed = false) ∧
    ((Upload (fun _ => (some 5 : Option Nat)) false).ret
        = (fun _ => (some 5 : Option Nat)) 2 ∧
      (Upload (fun _ => (some 5 : Option Nat)) false).failed = true) :=
  ⟨⟨⟨1, by decide, by decide⟩,
    (c2_upload_retry_policy (fun i => if i = 1 then (none : Option Nat) else some 7)).2.1
      ⟨1, by decide, by decide⟩⟩,
   (c2_upload_retry_policy (fun _ => (some 5 : Option Nat))).2.2
      (fun i _ => by simp)⟩

theorem c3_witness :
    (4 ≤ List.length [0, 0, 0, 0] ∧ ¬ List.take 4 [0, 0, 0, 0] = IncrementFileHeader) ∧
    getIncrementHeaderFields [0, 0, 0, 0]
      = Except.error PgError.invalidIncrementFileHeader :=
  ⟨⟨by decide, by decide⟩,
    (c3_decoder_header_whitelist [0, 0, 0, 0]).1 (by decide) (by decide)⟩

theorem c4_witness :
    BuildStartBackup 100000 = Except.ok startBackupQuery10 ∧
    BuildStartBackup 90600 = Except.ok startBackupQuery96 ∧
    BuildStartBackup 90000 = Except.ok startBackupQuery90 ∧
    BuildStopBackup 90000 = Except.ok stopBackupQuery90 ∧
    BuildStartBackup 80000
      = Except.error (BackupQueryError.unsupportedPostgresVersion 80000) ∧
    BuildStopBackup 80000
      = Except.error (BackupQueryError.unsupportedPostgresVersion 80000) :=
  ⟨(c4_version_gated_queries 100000).1 (by decide),
   (c4_version_gated_queries 90600).2.1 (by decide) (by decide),
   ((c4_version_gated_queries 90000).2.2.1 (by decide) (by decide)).1,
   ((c4_version_gated_queries 90000).2.2.1 (by decide) (by decide)).2,
   ((c4_version_gated_queries 80000).2.2.2.1 (by decide) (by decide)).1,
   ((c4_version_gated_queries 80000).2.2.2.1 (by decide) (by decide)).2⟩

theorem c5_witness :
    ((uploadWALFile true (DownloadResult.found [1, 2]) [1, 3] true).1
      = some WalPushError.cantOverwriteWalFile) ∧
    (uploadWALFile true (DownloadResult.found [1, 3]) [1, 3] true = (none, false)) ∧
    ((uploadWALFile true DownloadResult.absent [1, 3] true).2 = true) :=
  ⟨(c5_prevent_wal_overwrite (DownloadResult.found [1, 2]) [1, 3] true).1.mpr
      ⟨[1, 2], rfl, by decide⟩,
   (c5_prevent_wal_overwrite (DownloadResult.found [1, 3]) [1, 3] true).2.1 rfl,
   ((c5_prevent_wal_overwrite DownloadResult.absent [1, 3] true).2.2 rfl).1⟩

theorem c6_witness :
    (∀ p ∈ [List.replicate DatabasePageSize 1], p.length = DatabasePageSize) ∧
    (∃ T, WritePagesFromIncrement
        (encodeIncrement 8192 [5] [List.replicate DatabasePageSize 1])
        demoTargetThrees true = Except.ok T ∧
      T.size = demoTargetThrees.size ∧
      (∀ j, (¬ j ∈ [5] ∨ getPageCount demoTargetThrees ≤ j) →
        pageOf T j = pageOf demoTargetThrees j)) :=
  ⟨by intro p hp; rw [List.mem_singleton] at hp; subst hp; exact List.length_replicate _ _,
    c6_write_pages_from_increment 8192 [5] [List.replicate DatabasePageSize 1]
      demoTargetThrees true
      (by decide) (by decide)
      (by intro b hb; rw [List.mem_singleton] at hb; subst hb; decide)
      rfl
      (by intro p hp; rw [List.mem_singleton] at hp; subst hp
          exact List.length_replicate _ _)⟩

theorem c7_witness :
    ([List.replicate DatabasePageSize 4, List.replicate DatabasePageSize 5].length
      = getPageCount demoTargetMixed) ∧
    (∃ T, RestoreMissingPages
        (([List.replicate DatabasePageSize 4,
            List.replicate DatabasePageSize 5]).flatten ++ [])
        demoTargetMixed = Except.ok T ∧
      T.size = demoTargetMixed.size ∧
      (∀ idx, idx < getPageCount demoTargetMixed →
        pageOf T idx
          = if headerBytes demoTargetMixed idx = List.replicate headerSize 0
            then ([List.replicate DatabasePageSize 4,
              List.replicate DatabasePageSize 5]).getD idx []
            else pageOf demoTargetMixed idx) ∧
      (∀ j, getPageCount demoTargetMixed ≤ j →
        pageOf T j = pageOf demoTargetMixed j)) :=
  ⟨by decide,
    c7_restore_missing_pages
      [List.replicate DatabasePageSize 4, List.replicate DatabasePageSize 5] []
      demoTargetMixed
      (by decide)
      (by
        intro p hp
        rcases List.mem_cons.mp hp with he | hp2
        · subst he; exact List.length_replicate _ _
        · rw [List.mem_singleton] at hp2; subst hp2; exact List.length_replicate _ _)⟩

theorem c8_witness :
    ((true : Bool) = true) ∧
    (Upload (fun _ => (some 1 : Option Nat)) true).failed = true ∧
    (uploadMultiple [fun _ => (some 1 : Option Nat)] { failed := true }).2.failed = true :=
  ⟨rfl,
   c8_failed_write_once.2.2.1 (fun _ => (some 1 : Option Nat)) true rfl,
   c8_failed_write_once.2.2.2 [fun _ => (some 1 : Option Nat)] { failed := true } rfl⟩

theorem c9_witness :
    (([9] : List Nat) ≠ []) ∧
    WritePagesFromIncrement
        (encodeIncrement 8192 [0] [List.replicate DatabasePageSize 6] ++ [9])
        demoTargetThrees false
      = Except.error PgError.unexpectedTarData ∧
    (∃ T, WritePagesFromIncrement
        (encodeIncrement 8192 [0] [List.replicate DatabasePageSize 6] ++ [])
        demoTargetThrees false = Except.ok T) :=
  ⟨by decide,
   (c9_write_pages_exhaustion 8192 [0] [List.replicate DatabasePageSize 6] [9]
      demoTargetThrees false
      (by decide) (by decide)
      (by intro b hb; rw [List.mem_singleton] at hb; subst hb; decide)
      rfl
      (by intro p hp; rw [List.mem_singleton] at hp; subst hp
          exact List.length_replicate _ _)).2 (by decide),
   (c9_write_pages_exhaustion 8192 [0] [List.replicate DatabasePageSize 6] []
      demoTargetThrees false
      (by decide) (by decide)
      (by intro b hb; rw [List.mem_singleton] at hb; subst hb; decide)
      rfl
      (by intro p hp; rw [List.mem_singleton] at hp; subst hp
          exact List.length_replicate _ _)).1 rfl⟩

theorem c10_witness :
    ([List.replicate DatabasePageSize 4].length < getPageCount demoTargetZeros) ∧
    (∃ T, RestoreMissingPages ([List.replicate DatabasePageSize 4]).flatten
        demoTargetZeros = Except.ok T ∧
      (∀ j, [List.replicate DatabasePageSize 4].length ≤ j →
        pageOf T j = pageOf demoTargetZeros j)) :=
  ⟨by decide,
    c10_restore_missing_pages_eof [List.replicate DatabasePageSize 4]
      demoTargetZeros
      (by decide)
      (by intro p hp; rw [List.mem_singleton] at hp; subst hp
          exact List.length_replicate _ _)⟩

end WalG
